import Mathlib

/-!
Verification development for the flight-schedule analysis repository
(`pages/Test.py`, `pages/Planches_de_vols.py`, `pages/Eté_2025.py`).

Instants are embedded as `Int` minutes (a `datetime` anchored to the
row's calendar date becomes minutes since a global origin; only order
and differences of instants matter to the algorithms).  Missing /
unparsable cells (`NaN`, failed `parse_time`, failed
`format_hhmm_to_hhmm`) are embedded as `none`.
-/

namespace CRL

/-- A normalized interval: a row of the preprocessed dataframe restricted
to the fields the scheduler reads (`HA` = start, `HD` = end), plus an
identifier distinguishing rows. -/
structure Interval where
  id : Nat
  start : Int
  stop : Int
deriving DecidableEq, Repr

/-! ## Policy B scheduler: `assign_vacation_lines` (Test.py lines 76-109) -/

/-- The gap-adjusted overlap test of `assign_vacation_lines`:
`flight['HA'] - min_gap < assigned_flight['HD'] and
 flight['HD'] + min_gap > assigned_flight['HA']`. -/
def gapConflict (gap : Int) (f a : Interval) : Bool :=
  decide (f.start - gap < a.stop) && decide (f.stop + gap > a.start)

/-- `can_assign`: the candidate conflicts with no flight already on the line. -/
def canJoin (gap : Int) (line : List Interval) (f : Interval) : Bool :=
  line.all fun a => ! gapConflict gap f a

/-- One round of the `while` loop body after the anchor is placed: scan the
remaining unassigned flights in sorted order; a flight joins the line when
`flight['HD'] <= vacation_end` and it passes the gap test against every
flight already on the line.  Returns (line members, still-unassigned). -/
def roundScan (gap w : Int) : List Interval → List Interval → List Interval × List Interval
  | line, [] => (line, [])
  | line, f :: rest =>
    if decide (f.stop ≤ w) && canJoin gap line f then
      roundScan gap w (line ++ [f]) rest
    else
      let r := roundScan gap w line rest
      (r.1, f :: r.2)

/-- The `while df[df['Vacation Line'] == -1].shape[0] > 0` loop: each round
takes the earliest unassigned flight as anchor of a fresh line with window
end `anchor.start + 60 * amplitude_hours`, runs `roundScan`, and recurses
on the flights left unassigned.  The fuel argument bounds the number of
rounds; `roundScan_snd_length_le` below shows a round never grows the
unassigned set, and since each round also removes its anchor,
`length`-many rounds always finish (`assignLinesAux_fuel_irrelevant`). -/
def assignLinesAux (amp gap : Int) : Nat → List Interval → List (List Interval)
  | _, [] => []
  | 0, _ :: _ => []
  | fuel + 1, a :: rest =>
    let r := roundScan gap (a.start + 60 * amp) [a] rest
    r.1 :: assignLinesAux amp gap fuel r.2

/-- Insert into a start-sorted list, keeping equal starts in input order. -/
def insertByStart (a : Interval) : List Interval → List Interval
  | [] => [a]
  | b :: bs => if b.start ≤ a.start then b :: insertByStart a bs else a :: b :: bs

/-- `df.sort_values('HA')`: sort the rows ascending by start instant. -/
def sortByStart : List Interval → List Interval
  | [] => []
  | a :: as => insertByStart a (sortByStart as)

/-- `assign_vacation_lines(data, vacation_amplitude_hours, min_gap_minutes)`:
sort by `HA`, then run anchor rounds until every flight carries a line.
The result lists the lines in creation order (line 0 first); a flight's
`Vacation Line` value is the index of the list containing it. -/
def assign_vacation_lines (amplitude_hours gap_minutes : Int) (xs : List Interval) :
    List (List Interval) :=
  assignLinesAux amplitude_hours gap_minutes xs.length (sortByStart xs)

/-- Decidable check that every (ordered) pair on a line passes the
gap-adjusted non-overlap test. -/
def pairwiseGapOk (gap : Int) : List Interval → Bool
  | [] => true
  | f :: rest => (rest.all fun a => ! gapConflict gap f a) && pairwiseGapOk gap rest

/-- Decidable check of the claimed window invariant: every member of the
line (anchor included) ends no later than `anchor.start + Amplitude`. -/
def claimWindowOk (amplitude_hours : Int) (line : List Interval) : Bool :=
  match line.head? with
  | none => true
  | some a => line.all fun f => decide (f.stop ≤ a.start + 60 * amplitude_hours)

/-- Decidable check of the invariant the code actually maintains: every
member other than the anchor ends inside the anchor's window, and all
pairs pass the gap test. -/
def lineInvariantOk (amplitude_hours gap_minutes : Int) (line : List Interval) : Bool :=
  (match line.head? with
   | none => true
   | some a => line.tail.all fun f => decide (f.stop ≤ a.start + 60 * amplitude_hours))
  && pairwiseGapOk gap_minutes line

/-! ## Policy A scheduler: `create_interactive_gantt` (Planches_de_vols.py lines 149-156) -/

/-- The overlap filter of the Policy A scan:
`(data['Vacation Line'] == line) & ((data['HA'] < row['HD']) & (data['HD'] > row['HA']))`
is non-empty, over the whole frame (assigned and not-yet-assigned rows alike,
the scanned row itself included). -/
def lineConflict (assign : List (Interval × Nat)) (row : Interval) (line : Nat) : Bool :=
  assign.any fun p =>
    p.2 == line && (decide (p.1.start < row.stop) && decide (p.1.stop > row.start))

/-- `len(data['Vacation Line'].unique())`: number of distinct line values
currently present in the frame. -/
def uniqueCount (assign : List (Interval × Nat)) : Nat :=
  ((assign.map Prod.snd).dedup).length

/-- Body of `for idx, row in data.iterrows()`: scan
`line in range(len(unique) + 1)` and assign the first line whose overlap
filter comes back empty; when none qualifies the row keeps its value. -/
def planchesStep (assign : List (Interval × Nat)) (i : Nat) : List (Interval × Nat) :=
  match assign[i]? with
  | none => assign
  | some p =>
    match (List.range (uniqueCount assign + 1)).find? (fun l => ! lineConflict assign p.1 l) with
    | some l => assign.set i (p.1, l)
    | none => assign

/-- The Policy A assignment of `create_interactive_gantt`: initialise
`data['Vacation Line'] = 0`, then run the row scan over the frame in
ingestion order. -/
def create_gantt_lines (rows : List Interval) : List (Interval × Nat) :=
  (List.range rows.length).foldl planchesStep (rows.map fun r => (r, 0))

/-! ## Normalizer of Test.py / Planches_de_vols.py: `preprocess_data`

A raw row after the two `parse_time` applications: `ha`/`hd` are the
parsed instants (minutes), `none` when the cell was missing (`NaN`) or
matched no recognized time layout; `vold`/`vola` are the flight-code
cells. -/
structure FlightRow where
  ha : Option Int
  hd : Option Int
  vold : Option String
  vola : Option String
deriving DecidableEq, Repr

/-- The two masked mutations of `preprocess_data`: `night_stop_mask`
(`HA` set, `HD` missing) synthesizes `HD = HA + 30 minutes`;
`depart_sec_mask` (`HD` set, `HA` missing) synthesizes `HA = HD - 30`. -/
def adjustTimes (r : FlightRow) : FlightRow :=
  match r.ha, r.hd with
  | some a, none => { r with hd := some (a + 30) }
  | none, some d => { r with ha := some (d - 30) }
  | _, _ => r

/-- `str.extract(r'^([A-Za-z]+)')`: the leading alphabetic run of the
string, `NaN` when the string does not start with a letter. -/
def str_extract_alpha (s : String) : Option String :=
  let run := s.toList.takeWhile Char.isAlpha
  if run.isEmpty then none else some (String.mk run)

/-- `df['Company']` resolution of `preprocess_data`: extract from `VOLD`;
rows where that extraction is `NaN` are filled from the `VOLA` extraction. -/
def companyOf (vold vola : Option String) : Option String :=
  match vold.bind str_extract_alpha with
  | some c => some c
  | none => vola.bind str_extract_alpha

/-- One row through `preprocess_data`: adjusted times plus resolved company. -/
def preprocessRow (r : FlightRow) : FlightRow × Option String :=
  (adjustTimes r, companyOf r.vold r.vola)

/-- `preprocess_data` row pipeline: per-row time synthesis and company
resolution, then `df[df['HA'].notna() | df['HD'].notna()]`. -/
def preprocess_data (rows : List FlightRow) : List (FlightRow × Option String) :=
  (rows.map preprocessRow).filter fun p => p.1.ha.isSome || p.1.hd.isSome

/-- Decidable check that every survivor of `preprocess_data` with both
times present has `start <= end`. -/
def survivors_start_le_end (rows : List FlightRow) : Bool :=
  (preprocess_data rows).all fun p =>
    match p.1.ha, p.1.hd with
    | some a, some d => decide (a ≤ d)
    | _, _ => true

/-! ## Normalizer of Eté_2025.py: `prepare_data`

A raw row after `format_hhmm_to_hhmm` on `Arr`/`Dép`: `arr`/`dep` hold
the time of day in minutes, `none` when the cell was missing or `"-"`;
`date` is the row's calendar date as a minute instant (`none` = `NaT`);
`narr`/`ndep` are the flight-number cells `n°arr`/`n°dep`. -/
structure EteRow where
  date : Option Int
  arr : Option Int
  dep : Option Int
  narr : Option String
  ndep : Option String
deriving DecidableEq, Repr

/-- Initial `df["Start"]`:
`pd.to_datetime(Date + " " + Arr.fillna("00:00"))` — a missing arrival
time is filled with midnight, so the result is missing only when the
date itself is. -/
def startInit (r : EteRow) : Option Int :=
  r.date.map fun d => d + r.arr.getD 0

/-- Initial `df["End"]`, same construction from `Dép`. -/
def endInit (r : EteRow) : Option Int :=
  r.date.map fun d => d + r.dep.getD 0

/-- `compute_start_end(row)`: if `Arr` is missing and `Dép` present,
`start = End - 35 minutes`; if `Dép` is missing and `Arr` present,
`end = Start + 35 minutes`; otherwise the initial values stand. -/
def compute_start_end (r : EteRow) : Option Int × Option Int :=
  let s0 := startInit r
  let e0 := endInit r
  let s := if r.arr.isNone && r.dep.isSome then e0.map (fun x => x - 35) else s0
  let e := if r.dep.isNone && r.arr.isSome then s0.map (fun x => x + 35) else e0
  (s, e)

/-- `extract_company_code(flight_number)`: for a string other than `"-"`,
keep every alphabetic character; otherwise `None`. -/
def extract_company_code (v : Option String) : Option String :=
  match v with
  | some s => if s = "-" then none else some (String.mk (s.toList.filter Char.isAlpha))
  | none => none

/-- The `df["Compagnie"]` lambda of `prepare_data`: extract from `n°arr`
when present and not `"-"`, else from `n°dep` when present and not `"-"`,
else `None`. -/
def compagnieOf (narr ndep : Option String) : Option String :=
  if narr.isSome ∧ narr ≠ some "-" then extract_company_code narr
  else if ndep.isSome ∧ ndep ≠ some "-" then extract_company_code ndep
  else none

/-- A row of the frame `prepare_data` returns. -/
structure Prepared where
  row : EteRow
  start : Option Int
  stop : Option Int
  compagnie : Option String
deriving DecidableEq, Repr

/-- One row through `prepare_data`. -/
def prepareRow (r : EteRow) : Prepared :=
  { row := r
    start := (compute_start_end r).1
    stop := (compute_start_end r).2
    compagnie := compagnieOf r.narr r.ndep }

/-- `prepare_data` row pipeline: `Start`/`End` synthesis, `Compagnie`
extraction, then `df.dropna(subset=["Start", "End"])`. -/
def prepare_data (rows : List EteRow) : List Prepared :=
  (rows.map prepareRow).filter fun p => p.start.isSome && p.stop.isSome

/-! ## Occupancy sampler and demand aggregator (Eté_2025.py) -/

/-- A flight as the sampler reads it: the `Start`, `End` and `Compagnie`
columns of a surviving row of the date-filtered frame. -/
structure Vol where
  start : Int
  stop : Int
  compagnie : Option String
deriving DecidableEq, Repr

/-- The coverage predicate as the spec words it: interval `i` covers
instant `t` iff `i.start <= t <= i.end`, inclusive on both ends. -/
def covers (i : Vol) (t : Int) : Prop :=
  i.start ≤ t ∧ t ≤ i.stop

instance (i : Vol) (t : Int) : Decidable (covers i t) :=
  inferInstanceAs (Decidable (i.start ≤ t ∧ t ≤ i.stop))

/-- The global load curve (lines 163-167): for each sample instant,
`((df["Start"] <= time) & (df["End"] >= time)).sum()`. -/
def charge_global (times : List Int) (df : List Vol) : List Nat :=
  times.map fun t =>
    (df.filter fun i => decide (i.start ≤ t) && decide (i.stop ≥ t)).length

/-- The per-category weight the aggregator effectively applies:
`"FR"` needs 1 escabeau, every other (or absent) company needs 2. -/
def escWeight (c : Option String) : Nat :=
  if c = some "FR" then 1 else 2

/-- `besoin_escabeaux` (lines 227-234): per sample instant, filter the
active flights, then `count_fr * 1 + count_other * 2`, where `count_fr`
counts `Compagnie == "FR"` and `count_other` counts `Compagnie != "FR"`
(an absent company compares unequal, as `NaN` does in pandas). -/
def besoin_escabeaux (times : List Int) (df : List Vol) : List Nat :=
  times.map fun t =>
    let active := df.filter fun i => decide (i.start ≤ t) && decide (i.stop ≥ t)
    let count_fr := (active.filter fun i => i.compagnie == some "FR").length
    let count_other := (active.filter fun i => i.compagnie != some "FR").length
    count_fr * 1 + count_other * 2

/-! ## Claim-side definition (for the category-resolution refinement) -/

/-- Modelled from the spec wording of the category rule, for comparison
with the code: the leading alphabetic run of the departure-side code when
that code is present and non-empty; otherwise the leading alphabetic run
of the arrival-side code; otherwise null. -/
def claimed_category (depCode arrCode : Option String) : Option String :=
  match depCode with
  | some s =>
    if s ≠ "" then some (String.mk (s.toList.takeWhile Char.isAlpha))
    else match arrCode with
      | some a => if a ≠ "" then some (String.mk (a.toList.takeWhile Char.isAlpha)) else none
      | none => none
  | none =>
    match arrCode with
    | some a => if a ≠ "" then some (String.mk (a.toList.takeWhile Char.isAlpha)) else none
    | none => none

/-! ## Lemmas about the Policy B scheduler -/

/-- The gap-adjusted overlap test is symmetric. -/
theorem gapConflict_symm (gap : Int) (u v : Interval) :
    gapConflict gap u v = gapConflict gap v u := by
  simp only [gapConflict]
  rw [Bool.and_comm]
  congr 1
  · rw [decide_eq_decide]; omega
  · rw [decide_eq_decide]; omega

/-- A round never grows the unassigned set. -/
theorem roundScan_snd_length_le (gap w : Int) :
    ∀ (xs line : List Interval), (roundScan gap w line xs).2.length ≤ xs.length := by
  intro xs
  induction xs with
  | nil => intro line; simp [roundScan]
  | cons f rest ih =>
    intro line
    simp only [roundScan]
    split
    · exact Nat.le_succ_of_le (ih _)
    · simpa using ih line

/-- A round only appends to the line, and everything appended ends inside
the window. -/
theorem roundScan_fst_append (gap w : Int) :
    ∀ (xs line : List Interval), ∃ ys, (roundScan gap w line xs).1 = line ++ ys ∧
      ∀ f ∈ ys, f.stop ≤ w := by
  intro xs
  induction xs with
  | nil => intro line; exact ⟨[], by simp [roundScan], by simp⟩
  | cons f rest ih =>
    intro line
    simp only [roundScan]
    split
    case isTrue h =>
      obtain ⟨ys, hy, hall⟩ := ih (line ++ [f])
      refine ⟨f :: ys, by rw [hy, List.append_assoc]; rfl, ?_⟩
      intro g hg
      rcases List.mem_cons.mp hg with rfl | hg
      · exact of_decide_eq_true (Bool.and_eq_true .. |>.mp h).1
      · exact hall g hg
    case isFalse h =>
      obtain ⟨ys, hy, hall⟩ := ih line
      exact ⟨ys, by simpa using hy, hall⟩

/-- A round preserves pairwise gap-separation of the line it extends. -/
theorem roundScan_pairwise (gap w : Int) :
    ∀ (xs line : List Interval),
      line.Pairwise (fun u v => gapConflict gap u v = false) →
      ((roundScan gap w line xs).1).Pairwise (fun u v => gapConflict gap u v = false) := by
  intro xs
  induction xs with
  | nil => intro line h; simpa [roundScan] using h
  | cons f rest ih =>
    intro line h
    simp only [roundScan]
    split
    case isTrue hc =>
      apply ih
      rw [List.pairwise_append]
      refine ⟨h, List.pairwise_singleton .., ?_⟩
      intro u hu v hv
      rw [List.mem_singleton] at hv
      have hcj : canJoin gap line f = true := (Bool.and_eq_true .. |>.mp hc).2
      have hnc := List.all_eq_true.mp hcj u hu
      rw [hv, gapConflict_symm]
      simpa using hnc
    case isFalse hc =>
      simpa using ih line h

/-- The flights of a round are exactly the line extension plus the
still-unassigned remainder. -/
theorem roundScan_perm (gap w : Int) :
    ∀ (xs line : List Interval),
      List.Perm ((roundScan gap w line xs).1 ++ (roundScan gap w line xs).2) (line ++ xs) := by
  intro xs
  induction xs with
  | nil => intro line; simp [roundScan]
  | cons f rest ih =>
    intro line
    simp only [roundScan]
    split
    · have e : (line ++ [f]) ++ rest = line ++ f :: rest := by simp
      exact e ▸ ih (line ++ [f])
    · have h1 : List.Perm
          ((roundScan gap w line rest).1 ++ f :: (roundScan gap w line rest).2)
          (f :: ((roundScan gap w line rest).1 ++ (roundScan gap w line rest).2)) :=
        List.perm_middle
      have h2 := (ih line).cons f
      have h3 : List.Perm (f :: (line ++ rest)) (line ++ f :: rest) := List.perm_middle.symm
      simpa using h1.trans (h2.trans h3)

/-- The scheduler never opens more lines than it has flights. -/
theorem assignLinesAux_length_le (amp gap : Int) :
    ∀ (fuel : Nat) (xs : List Interval), (assignLinesAux amp gap fuel xs).length ≤ xs.length := by
  intro fuel
  induction fuel with
  | zero => intro xs; cases xs <;> simp [assignLinesAux]
  | succ n ih =>
    intro xs
    cases xs with
    | nil => simp [assignLinesAux]
    | cons a rest =>
      simp only [assignLinesAux, List.length_cons]
      have h1 := roundScan_snd_length_le gap (a.start + 60 * amp) rest [a]
      exact Nat.succ_le_succ ((ih _).trans h1)

/-- With enough fuel, the concatenation of the produced lines is a
permutation of the input: every flight is assigned exactly once. -/
theorem assignLinesAux_join_perm (amp gap : Int) :
    ∀ (fuel : Nat) (xs : List Interval), xs.length ≤ fuel →
      List.Perm (assignLinesAux amp gap fuel xs).flatten xs := by
  intro fuel
  induction fuel with
  | zero =>
    intro xs h
    rw [List.length_eq_zero.mp (Nat.le_zero.mp h)]
    simp [assignLinesAux]
  | succ n ih =>
    intro xs h
    cases xs with
    | nil => simp [assignLinesAux]
    | cons a rest =>
      simp only [assignLinesAux, List.flatten_cons]
      have hlen : (roundScan gap (a.start + 60 * amp) [a] rest).2.length ≤ n :=
        le_trans (roundScan_snd_length_le gap (a.start + 60 * amp) rest [a])
          (Nat.succ_le_succ_iff.mp (by simpa using h))
      have h2 := List.Perm.append_left (roundScan gap (a.start + 60 * amp) [a] rest).1
        (ih _ hlen)
      exact h2.trans (roundScan_perm gap (a.start + 60 * amp) rest [a])

/-- Fuel beyond the number of flights is irrelevant: the `while` loop has
terminated by then, each round having assigned at least its anchor. -/
theorem assignLinesAux_fuel_irrelevant (amp gap : Int) :
    ∀ (fuel : Nat) (xs : List Interval), xs.length ≤ fuel →
      assignLinesAux amp gap fuel xs = assignLinesAux amp gap xs.length xs := by
  intro fuel
  induction fuel using Nat.strong_induction_on with
  | _ fuel ih =>
    intro xs h
    cases xs with
    | nil => cases fuel <;> rfl
    | cons a rest =>
      cases fuel with
      | zero => exact absurd h (by simp)
      | succ m =>
        rw [List.length_cons]
        simp only [assignLinesAux]
        congr 1
        have hr2 : (roundScan gap (a.start + 60 * amp) [a] rest).2.length ≤ rest.length :=
          roundScan_snd_length_le gap (a.start + 60 * amp) rest [a]
        have hm : rest.length ≤ m := Nat.succ_le_succ_iff.mp (by simpa using h)
        calc assignLinesAux amp gap m (roundScan gap (a.start + 60 * amp) [a] rest).2
            = assignLinesAux amp gap (roundScan gap (a.start + 60 * amp) [a] rest).2.length
                (roundScan gap (a.start + 60 * amp) [a] rest).2 :=
              ih m (Nat.lt_succ_self m) _ (hr2.trans hm)
          _ = assignLinesAux amp gap rest.length
                (roundScan gap (a.start + 60 * amp) [a] rest).2 :=
              (ih rest.length (Nat.lt_succ_of_le hm) _ hr2).symm

/-- Stable insertion keeps the same multiset. -/
theorem insertByStart_perm (a : Interval) :
    ∀ l : List Interval, List.Perm (insertByStart a l) (a :: l) := by
  intro l
  induction l with
  | nil => simp [insertByStart]
  | cons b bs ih =>
    simp only [insertByStart]
    split
    · exact (ih.cons b).trans (List.Perm.swap a b bs)
    · exact List.Perm.refl _

/-- Sorting keeps the same multiset. -/
theorem sortByStart_perm : ∀ xs : List Interval, List.Perm (sortByStart xs) xs := by
  intro xs
  induction xs with
  | nil => exact List.Perm.refl _
  | cons a as ih => exact (insertByStart_perm a (sortByStart as)).trans (ih.cons a)

/-- The decidable pairwise-gap check agrees with `List.Pairwise`. -/
theorem pairwiseGapOk_iff (gap : Int) : ∀ l : List Interval,
    pairwiseGapOk gap l = true ↔ l.Pairwise (fun u v => gapConflict gap u v = false) := by
  intro l
  induction l with
  | nil => simp [pairwiseGapOk]
  | cons f rest ih =>
    simp [pairwiseGapOk, List.pairwise_cons, ih, List.all_eq_true]

/-- Every line the rounds produce satisfies the code's invariant: members
other than the anchor end inside the anchor's window, and all pairs pass
the gap test. -/
theorem assignLinesAux_line_invariant (amp gap : Int) :
    ∀ (fuel : Nat) (xs l : List Interval),
      l ∈ assignLinesAux amp gap fuel xs → lineInvariantOk amp gap l = true := by
  intro fuel
  induction fuel with
  | zero => intro xs l h; cases xs <;> simp [assignLinesAux] at h
  | succ n ih =>
    intro xs l h
    cases xs with
    | nil => simp [assignLinesAux] at h
    | cons a rest =>
      simp only [assignLinesAux, List.mem_cons] at h
      rcases h with rfl | h
      · obtain ⟨ys, hy, hall⟩ := roundScan_fst_append gap (a.start + 60 * amp) rest [a]
        have hpw := roundScan_pairwise gap (a.start + 60 * amp) rest [a]
          (List.pairwise_singleton _ a)
        rw [lineInvariantOk, Bool.and_eq_true]
        constructor
        · rw [hy]
          simp only [List.cons_append, List.nil_append, List.head?_cons, List.tail_cons]
          rw [List.all_eq_true]
          intro f hf
          exact decide_eq_true (hall f hf)
        · exact (pairwiseGapOk_iff gap _).mpr hpw
      · exact ih _ l h

/-! ## Claim theorems: schedulers -/

/-- C1 (counterexample): the claim as stated fails.  A single flight of
duration longer than the amplitude (here `[0, 500]` minutes against an
8-hour window) is its own line's anchor — assigned unconditionally — and
ends after `anchor.start + Amplitude`, so the claimed window bound over
every assigned interval is violated. -/
theorem policyB_claim_counterexample :
    ((assign_vacation_lines 8 10 [⟨1, 0, 500⟩]).all fun l =>
      claimWindowOk 8 l && pairwiseGapOk 10 l) = false := by
  decide

/-- C1 (amended): in every line produced by `assign_vacation_lines`, every
member other than the anchor ends no later than `anchor.start + Amplitude`
(the anchor itself is assigned unconditionally), and every pair of members
passes the gap-adjusted non-overlap test. -/
theorem policyB_line_invariant (amp gap : Int) (xs l : List Interval)
    (h : l ∈ assign_vacation_lines amp gap xs) : lineInvariantOk amp gap l = true :=
  assignLinesAux_line_invariant amp gap _ _ l h

/-- C1 (witness): the invariant checked on line 0 of a concrete run. -/
theorem policyB_line_invariant_witness :
    lineInvariantOk 8 10 [⟨1, 480, 520⟩, ⟨3, 550, 590⟩] = true :=
  policyB_line_invariant 8 10 [⟨1, 480, 520⟩, ⟨2, 500, 540⟩, ⟨3, 550, 590⟩] _ (by decide)

/-- C8: on `A=[08:00,08:40]`, `B=[08:20,09:00]`, `C=[09:10,09:50]` with
`Amplitude = 8h`, `Gap = 10min`, the Policy B scheduler produces exactly
lines `0 ↦ [A, C]`, `1 ↦ [B]`: `B` fails the gap test against `A` while
`C` passes the window and gap tests and joins `A`'s line. -/
theorem policyB_concrete_scenario :
    assign_vacation_lines 8 10 [⟨1, 480, 520⟩, ⟨2, 500, 540⟩, ⟨3, 550, 590⟩] =
      [[⟨1, 480, 520⟩, ⟨3, 550, 590⟩], [⟨2, 500, 540⟩]] := by
  decide

/-- C10: the Policy B scheduler is total — the lines it produces hold
every input flight exactly once (their concatenation is a permutation of
the input), the number of lines never exceeds the number of flights, and
running the round loop with any extra fuel changes nothing (the loop has
terminated after at most one round per flight, each round assigning at
least its anchor). -/
theorem scheduler_totality (amp gap : Int) (xs : List Interval) :
    List.Perm (assign_vacation_lines amp gap xs).flatten xs ∧
    (assign_vacation_lines amp gap xs).length ≤ xs.length ∧
    ∀ extra : Nat, assignLinesAux amp gap (xs.length + extra) (sortByStart xs) =
      assign_vacation_lines amp gap xs := by
  have hsort := sortByStart_perm xs
  have hlen : (sortByStart xs).length = xs.length := hsort.length_eq
  refine ⟨?_, ?_, ?_⟩
  · exact (assignLinesAux_join_perm amp gap xs.length (sortByStart xs) (le_of_eq hlen)).trans
      hsort
  · exact le_trans (le_of_eq (congrArg List.length rfl))
      (le_trans (assignLinesAux_length_le amp gap xs.length (sortByStart xs)) (le_of_eq hlen))
  · intro extra
    rw [assignLinesAux_fuel_irrelevant amp gap (xs.length + extra) (sortByStart xs)
        (by omega),
      assign_vacation_lines,
      assignLinesAux_fuel_irrelevant amp gap xs.length (sortByStart xs) (le_of_eq hlen)]

/-- C3 (code defect): `create_interactive_gantt` initialises every row's
`Vacation Line` to `0` and the overlap scan ranges over the whole frame,
so the scanned row itself (still carrying the marker value `0`) blocks
line 0 for every non-degenerate interval.  A single interval
`[08:00, 08:40]` — for which every line is genuinely free — is assigned
line 1, not the first free line 0 the greedy description promises. -/
theorem planches_first_line_skipped :
    create_gantt_lines [⟨1, 480, 520⟩] = [(⟨1, 480, 520⟩, 1)] := by
  decide

/-! ## Claim theorems: sampler and aggregator -/

/-- The code's per-sample filter agrees with the spec's coverage
predicate `start <= t <= end`, inclusive on both ends. -/
theorem filter_covers_eq (S : List Vol) (t : Int) :
    (S.filter fun i => decide (i.start ≤ t) && decide (i.stop ≥ t)) =
      (S.filter fun i => decide (covers i t)) := by
  apply List.filter_congr
  intro i _
  simp [covers, Bool.decide_and]

/-- C2: `charge_global` returns one count per sample instant, in input
order, and the count at each instant is the brute-force cardinality of
the intervals covering it, boundary instants included. -/
theorem charge_global_bruteforce (S : List Vol) (times : List Int) (k : Nat) :
    (charge_global times S).length = times.length ∧
    (charge_global times S)[k]? = (times[k]?).map fun t =>
      (S.filter fun i => decide (covers i t)).length := by
  constructor
  · simp [charge_global]
  · simp only [charge_global, List.getElem?_map]
    cases times[k]? with
    | none => rfl
    | some t => simp [filter_covers_eq]

/-- Number of `"FR"` flights plus twice the number of others equals the
sum of the per-company weights. -/
theorem fr_count_weight_sum : ∀ l : List Vol,
    (l.filter fun i => i.compagnie == some "FR").length * 1 +
      (l.filter fun i => i.compagnie != some "FR").length * 2 =
      (l.map fun i => escWeight i.compagnie).sum := by
  intro l
  induction l with
  | nil => simp
  | cons v rest ih =>
    by_cases h : v.compagnie = some "FR"
    · have hw : escWeight (some "FR") = 1 := by simp [escWeight]
      simp [List.filter_cons, h, hw]
      omega
    · have hw : escWeight v.compagnie = 2 := by simp [escWeight, h]
      simp [List.filter_cons, h, hw]
      omega

/-- C9: at every sample instant, `besoin_escabeaux` equals the sum over
the intervals active at that instant (same coverage predicate as the
sampler) of the weight of each interval's category — `1` for the
privileged company `"FR"`, `2` for every other (including unset). -/
theorem besoin_escabeaux_weighted (times : List Int) (df : List Vol) :
    besoin_escabeaux times df = times.map fun t =>
      ((df.filter fun i => decide (covers i t)).map fun i => escWeight i.compagnie).sum := by
  unfold besoin_escabeaux
  apply List.map_congr_left
  intro t _
  rw [← filter_covers_eq, ← fr_count_weight_sum]

/-! ## Claim theorems: normalizers -/

/-- C4 (counterexample): a row whose parsed arrival instant lies after its
parsed departure instant (23:00 vs 01:00, both anchored to the row's
date) survives `preprocess_data` with `start > end`; no defect is
surfaced. -/
theorem start_le_end_claim_counterexample :
    survivors_start_le_end [⟨some 1380, some 60, none, none⟩] = false := by
  decide

/-- C4 (amended): normalization never checks `start <= end`.  A row with
both times present passes through `preprocess_data` unchanged — silently,
whatever the order of its two instants — while a row with exactly one
time present gets the other synthesized 30 minutes away, so only those
synthesized intervals are guaranteed to satisfy `start <= end`. -/
theorem normalization_passthrough (r : FlightRow) :
    (∀ a d, r.ha = some a → r.hd = some d →
        preprocess_data [r] = [(r, companyOf r.vold r.vola)]) ∧
    (∀ a, r.ha = some a → r.hd = none →
        (adjustTimes r).ha = some a ∧ (adjustTimes r).hd = some (a + 30) ∧ a ≤ a + 30) ∧
    (∀ d, r.ha = none → r.hd = some d →
        (adjustTimes r).ha = some (d - 30) ∧ (adjustTimes r).hd = some d ∧ d - 30 ≤ d) := by
  refine ⟨?_, ?_, ?_⟩
  · intro a d ha hd
    simp [preprocess_data, preprocessRow, adjustTimes, ha, hd]
  · intro a ha hd
    refine ⟨?_, ?_, by omega⟩ <;> simp [adjustTimes, ha, hd]
  · intro d ha hd
    refine ⟨?_, ?_, by omega⟩ <;> simp [adjustTimes, ha, hd]

/-- C4 (witness): the amended statement applied to a reversed-order row
and to the two single-time shapes. -/
theorem normalization_passthrough_witness :
    preprocess_data [⟨some 1380, some 60, none, none⟩] =
      [(⟨some 1380, some 60, none, none⟩, none)] ∧
    (adjustTimes ⟨some 100, none, none, none⟩).hd = some 130 ∧
    (adjustTimes ⟨none, some 100, none, none⟩).ha = some 70 :=
  ⟨(normalization_passthrough ⟨some 1380, some 60, none, none⟩).1 1380 60 rfl rfl,
   ((normalization_passthrough ⟨some 100, none, none, none⟩).2.1 100 rfl rfl).2.1,
   ((normalization_passthrough ⟨none, some 100, none, none⟩).2.2 100 rfl rfl).1⟩

/-- C6 (counterexample): in `prepare_data` of Eté_2025.py a row with
neither time parsable is not dropped: the missing times are first filled
with `00:00`, so the row survives as the degenerate interval
`[midnight, midnight]` of its date. -/
theorem incomplete_dropped_counterexample :
    prepare_data [⟨some 0, none, none, none, none⟩] ≠ [] ∧
    prepare_data [⟨some 0, none, none, none, none⟩] =
      [⟨⟨some 0, none, none, none, none⟩, some 0, some 0, none⟩] := by
  exact ⟨by decide, by decide⟩

/-- C6 (amended): `preprocess_data` (Test.py / Planches_de_vols.py) drops
a row with neither time parsable, non-fatally — the surrounding rows
normalize exactly as without it.  `prepare_data` (Eté_2025.py) instead
keeps such a row as the degenerate interval `[00:00, 00:00]` of its date,
because missing times are filled with midnight before the drop step. -/
theorem incomplete_row_handling (xs ys : List FlightRow) (bad : FlightRow) (e : EteRow) :
    (bad.ha = none → bad.hd = none →
        preprocess_data (xs ++ bad :: ys) = preprocess_data (xs ++ ys)) ∧
    (∀ d, e.date = some d → e.arr = none → e.dep = none →
        prepare_data [e] = [⟨e, some d, some d, compagnieOf e.narr e.ndep⟩]) := by
  constructor
  · intro h1 h2
    simp [preprocess_data, List.filter_append, List.filter_cons, preprocessRow, adjustTimes,
      h1, h2]
  · intro d hdate harr hdep
    simp [prepare_data, prepareRow, compute_start_end, startInit, endInit, hdate, harr, hdep]

/-- C6 (witness): the amended statement applied to a concrete batch and a
concrete Eté row. -/
theorem incomplete_row_handling_witness :
    preprocess_data [⟨some 10, some 20, none, none⟩, ⟨none, none, none, none⟩,
        ⟨some 30, some 40, none, none⟩] =
      preprocess_data [⟨some 10, some 20, none, none⟩, ⟨some 30, some 40, none, none⟩] ∧
    prepare_data [⟨some 720, none, none, none, none⟩] =
      [⟨⟨some 720, none, none, none, none⟩, some 720, some 720, none⟩] :=
  ⟨(incomplete_row_handling [⟨some 10, some 20, none, none⟩] [⟨some 30, some 40, none, none⟩]
      ⟨none, none, none, none⟩ ⟨some 720, none, none, none, none⟩).1 rfl rfl,
   (incomplete_row_handling [] [] ⟨none, none, none, none⟩
      ⟨some 720, none, none, none, none⟩).2 720 rfl rfl rfl⟩

/-- C7: when only one of the two instants is parsable, normalization
synthesizes the other a fixed default duration away and leaves the parsed
one unchanged: `D = 30` minutes in `preprocess_data`
(Test.py / Planches_de_vols.py) and `D = 35` minutes in
`compute_start_end` (Eté_2025.py), both inside the claimed 30-35 minute
range. -/
theorem default_duration_round_trip (r : FlightRow) (e : EteRow) :
    (∀ d, r.ha = none → r.hd = some d →
        (adjustTimes r).ha = some (d - 30) ∧ (adjustTimes r).hd = some d) ∧
    (∀ a, r.ha = some a → r.hd = none →
        (adjustTimes r).ha = some a ∧ (adjustTimes r).hd = some (a + 30)) ∧
    (∀ dt t, e.date = some dt → e.arr = none → e.dep = some t →
        (prepareRow e).start = some (dt + t - 35) ∧ (prepareRow e).stop = some (dt + t)) ∧
    (∀ dt t, e.date = some dt → e.dep = none → e.arr = some t →
        (prepareRow e).start = some (dt + t) ∧ (prepareRow e).stop = some (dt + t + 35)) := by
  refine ⟨?_, ?_, ?_, ?_⟩
  · intro d ha hd
    constructor <;> simp [adjustTimes, ha, hd]
  · intro a ha hd
    constructor <;> simp [adjustTimes, ha, hd]
  · intro dt t hdate harr hdep
    constructor <;> simp [prepareRow, compute_start_end, startInit, endInit, hdate, harr, hdep]
  · intro dt t hdate hdep harr
    constructor <;> simp [prepareRow, compute_start_end, startInit, endInit, hdate, harr, hdep]

/-- C7 (witness): the round trip at a departure-only row (`HD = 08:00`),
an arrival-only row (`HA = 08:00`), and the two Eté shapes. -/
theorem default_duration_round_trip_witness :
    (adjustTimes ⟨none, some 480, none, none⟩).ha = some 450 ∧
    (adjustTimes ⟨some 480, none, none, none⟩).hd = some 510 ∧
    (prepareRow ⟨some 1440, none, some 480, none, none⟩).start = some 1885 ∧
    (prepareRow ⟨some 1440, some 480, none, none, none⟩).stop = some 1955 :=
  ⟨((default_duration_round_trip ⟨none, some 480, none, none⟩
      ⟨some 1440, none, some 480, none, none⟩).1 480 rfl rfl).1,
   ((default_duration_round_trip ⟨some 480, none, none, none⟩
      ⟨some 1440, none, some 480, none, none⟩).2.1 480 rfl rfl).2,
   ((default_duration_round_trip ⟨none, some 480, none, none⟩
      ⟨some 1440, none, some 480, none, none⟩).2.2.1 1440 480 rfl rfl rfl).1,
   ((default_duration_round_trip ⟨none, some 480, none, none⟩
      ⟨some 1440, some 480, none, none, none⟩).2.2.2 1440 480 rfl rfl rfl).2⟩

/-- C5 (counterexample): on a row with arrival code `"AF123"` and
departure code `"FR456"`, the Eté_2025 normalizer resolves `"AF"` — the
arrival side is preferred — while the claimed departure-first
leading-run rule would resolve `"FR"`. -/
theorem category_rule_counterexample :
    compagnieOf (some "AF123") (some "FR456") = some "AF" ∧
    claimed_category (some "FR456") (some "AF123") = some "FR" ∧
    compagnieOf (some "AF123") (some "FR456") ≠
      claimed_category (some "FR456") (some "AF123") := by
  exact ⟨by decide, by decide, by decide⟩

/-- C5 (amended): each normalizer applies its own fixed category rule.
`preprocess_data` (Test.py / Planches_de_vols.py) takes the leading
alphabetic run of the departure-side code `VOLD` when that extraction is
non-empty, falling back to the `VOLA` extraction exactly when the `VOLD`
extraction yields nothing (code absent or not starting with a letter).
`prepare_data` (Eté_2025.py) prefers the arrival-side code `n°arr` —
when present and not `"-"` — over `n°dep`, and keeps every alphabetic
character of the chosen code, not just the leading run. -/
theorem category_resolution_rules (vold vola narr ndep : Option String) :
    (∀ s, vold = some s → s.toList.takeWhile Char.isAlpha ≠ [] →
        companyOf vold vola = some (String.mk (s.toList.takeWhile Char.isAlpha))) ∧
    (vold.bind str_extract_alpha = none →
        companyOf vold vola = vola.bind str_extract_alpha) ∧
    (∀ s, narr = some s → s ≠ "-" →
        compagnieOf narr ndep = some (String.mk (s.toList.filter Char.isAlpha))) ∧
    ((narr = none ∨ narr = some "-") → ∀ s, ndep = some s → s ≠ "-" →
        compagnieOf narr ndep = some (String.mk (s.toList.filter Char.isAlpha))) ∧
    ((narr = none ∨ narr = some "-") → (ndep = none ∨ ndep = some "-") →
        compagnieOf narr ndep = none) := by
  refine ⟨?_, ?_, ?_, ?_, ?_⟩
  · intro s hs hrun
    subst hs
    rcases hr : s.toList.takeWhile Char.isAlpha with _ | ⟨c, cs⟩
    · exact absurd hr hrun
    · have he : str_extract_alpha s = some (String.mk (c :: cs)) := by
        unfold str_extract_alpha
        rw [hr]
        rfl
      unfold companyOf
      rw [show (some s).bind str_extract_alpha = str_extract_alpha s from rfl, he]
  · intro h
    simp [companyOf, h]
  · intro s hs h
    subst hs
    simp [compagnieOf, extract_company_code, h]
  · intro hn s hs h
    subst hs
    rcases hn with rfl | rfl <;>
      simp [compagnieOf, extract_company_code, h]
  · intro hn hd
    rcases hn with rfl | rfl <;> rcases hd with rfl | rfl <;>
      simp [compagnieOf, extract_company_code]

/-- C5 (witness): the amended rules applied to concrete codes: the
Planches normalizer keeps the leading run of `VOLD`, the Eté normalizer
keeps all letters of `n°arr`. -/
theorem category_resolution_rules_witness :
    companyOf (some "AF123") (some "U2") = some "AF" ∧
    compagnieOf (some "AF123") (some "FR456") = some "AF" :=
  ⟨(category_resolution_rules (some "AF123") (some "U2") none none).1 "AF123" rfl (by decide),
   (category_resolution_rules none none (some "AF123") (some "FR456")).2.2.1 "AF123" rfl
     (by decide)⟩

end CRL
